import Mathlib

/-!
Shallow embedding of the Q-game backend (`src/app/backend/server.py`).

The game engine operates on a `GameState` record persisted in a store; each
HTTP action loads the state, runs the engine, and writes the result back only
on success.  We embed the engine as pure Lean functions.  Ambient randomness
(`random.shuffle`) is modelled by an explicit `shuffle : List Tile → List Tile`
parameter; theorems that depend on shuffling hypothesise that it permutes (or
at least preserves the length of) its input, which `random.shuffle` always
does.  The `id` fields are uuids in Python; gameplay compares tiles only by
`(shape, color)` and players only by `id`, so ids are plain strings here.
The `created_at` timestamp is never consulted by the game logic and is
omitted.
-/

/-- Mirrors `SHAPES` (server.py line 30). -/
def SHAPES : List String := ["star", "8star", "square", "circle", "clover", "diamond"]

/-- Mirrors `COLORS` (server.py line 31). -/
def COLORS : List String := ["red", "green", "blue", "yellow", "orange", "purple"]

/-- Mirrors `TILES_PER_TYPE = 30`. -/
def TILES_PER_TYPE : Nat := 30

/-- Mirrors `INITIAL_HAND_SIZE = 6`. -/
def INITIAL_HAND_SIZE : Nat := 6

/-- Mirrors the pydantic model `Tile {shape, color, id}`. -/
structure Tile where
  shape : String
  color : String
  id : String
deriving DecidableEq, Repr

/-- Mirrors `Position {row, col}` (signed integers, unbounded grid). -/
structure Position where
  row : Int
  col : Int
deriving DecidableEq, Repr

/-- Mirrors `PlacedTile {tile, position, placed_by, turn_number}`. -/
structure PlacedTile where
  tile : Tile
  position : Position
  placed_by : String
  turn_number : Nat
deriving DecidableEq, Repr

/-- Mirrors the enum `PlayerType`. -/
inductive PlayerType where
  | human
  | ai
deriving DecidableEq, Repr

/-- Mirrors `Player {id, name, player_type, hand, score, is_active}`. -/
structure Player where
  id : String
  name : String
  player_type : PlayerType
  hand : List Tile
  score : Nat
  is_active : Bool
deriving DecidableEq, Repr

/-- Mirrors the enum `GameStatus`. -/
inductive GameStatus where
  | waiting
  | in_progress
  | finished
deriving DecidableEq, Repr

/-- Mirrors the enum `ActionType`. -/
inductive ActionType where
  | pass
  | exchange
  | place
deriving DecidableEq, Repr

/-- Mirrors `GameAction {action_type, player_id, tiles, positions}`;
`tiles`/`positions` are `Optional` in Python. -/
structure GameAction where
  action_type : ActionType
  player_id : String
  tiles : Option (List Tile)
  positions : Option (List Position)
deriving DecidableEq, Repr

/-- Mirrors `GameState` (the `created_at` timestamp is omitted: the logic
never reads it). -/
structure GameState where
  id : String
  status : GameStatus
  players : List Player
  board : List PlacedTile
  remaining_tiles : List Tile
  current_player_index : Nat
  turn_number : Nat
  winner_id : Option String
  consecutive_passes : Nat
deriving DecidableEq, Repr

/-- The tile pool before shuffling: for each shape, for each color,
`TILES_PER_TYPE` copies (server.py lines 107-111, the three nested loops).
The uuid `id` of each tile is never compared by the game logic, so it is
rendered as `""`. -/
def all_tiles_ordered : List Tile :=
  SHAPES.flatMap fun shape =>
    COLORS.flatMap fun color =>
      List.replicate TILES_PER_TYPE { shape := shape, color := color, id := "" }

/-- Mirrors `create_all_tiles` (server.py lines 105-113): build the ordered
pool, then `random.shuffle` it — the shuffle outcome is the explicit
`shuffle` parameter. -/
def create_all_tiles (shuffle : List Tile → List Tile) : List Tile :=
  shuffle all_tiles_ordered

/-- Mirrors `deal_initial_hands` (server.py lines 115-119): each player in
order takes `INITIAL_HAND_SIZE` tiles off the front of the pool.  Returns the
updated players and the remaining pool. -/
def deal_initial_hands : List Player → List Tile → List Player × List Tile
  | [], pool => ([], pool)
  | p :: ps, pool =>
    let p' := { p with hand := pool.take INITIAL_HAND_SIZE }
    let rest := deal_initial_hands ps (pool.drop INITIAL_HAND_SIZE)
    (p' :: rest.1, rest.2)

/-- Mirrors `place_initial_tile` (server.py lines 121-131): if the pool is
nonempty, pop its head and place it at (0,0) by the referee. -/
def place_initial_tile (board : List PlacedTile) (pool : List Tile) :
    List PlacedTile × List Tile :=
  match pool with
  | [] => (board, pool)
  | t :: rest =>
    (board ++ [{ tile := t, position := { row := 0, col := 0 },
                 placed_by := "referee", turn_number := 0 }], rest)

/-- Last-wins lookup of a board position, mirroring the dict comprehension
`{(row, col): tile for tile in board}` in `get_neighbors` (line 135): when two
placed tiles share a position, the later one overwrites the earlier. -/
def board_lookup (board : List PlacedTile) (pos : Position) : Option PlacedTile :=
  board.reverse.find? fun pt =>
    pt.position.row == pos.row && pt.position.col == pos.col

/-- Mirrors `get_neighbors` (server.py lines 133-142): the four orthogonal
neighbors in dict order up, down, left, right. -/
def get_neighbors (position : Position) (board : List PlacedTile) :
    List (Option PlacedTile) :=
  [ board_lookup board { row := position.row - 1, col := position.col },
    board_lookup board { row := position.row + 1, col := position.col },
    board_lookup board { row := position.row, col := position.col - 1 },
    board_lookup board { row := position.row, col := position.col + 1 } ]

/-- Mirrors `validate_tile_placement` (server.py lines 144-164). -/
def validate_tile_placement (tile : Tile) (position : Position)
    (board : List PlacedTile) : Bool :=
  -- "Check if position is already occupied"
  if board.any (fun pt =>
      pt.position.row == position.row && pt.position.col == position.col) then
    false
  else
    let adjacent_neighbors := (get_neighbors position board).filterMap id
    -- "Must have at least one neighbor (except for first tile)"
    if adjacent_neighbors.isEmpty && !board.isEmpty then
      false
    else
      -- "Check matching rules with neighbors"
      adjacent_neighbors.all fun neighbor =>
        tile.color == neighbor.tile.color || tile.shape == neighbor.tile.shape

/-- Mirrors `calculate_score` (server.py lines 166-186).  The Python code
appends the new tile to the row/column filters and sorts them before taking
lengths; sorting does not change the length, so the sorted lists are rendered
by their lengths directly. -/
def calculate_score (placed_tiles : List (Tile × Position))
    (board : List PlacedTile) : Nat :=
  let base := placed_tiles.length  -- "1 point per tile"
  let seq := placed_tiles.foldl
    (fun acc tp =>
      let row_tiles :=
        (board.filter fun pt => pt.position.row == tp.2.row) ++
          [{ tile := tp.1, position := tp.2, placed_by := "temp", turn_number := 0 }]
      let col_tiles :=
        (board.filter fun pt => pt.position.col == tp.2.col) ++
          [{ tile := tp.1, position := tp.2, placed_by := "temp", turn_number := 0 }]
      acc + row_tiles.length + col_tiles.length)
    0
  base + seq

/-- Mirrors the pure part of the `create_game` route (server.py lines
189-213): build one human player plus `num_ai_players` AI players, generate
and deal the pool, place the referee tile, and mark the game in progress.
Uuids are supplied by `ids : Nat → String` (index 0 names the game, index
`i + 1` names player `i`). -/
def create_game (player_name : String) (num_ai_players : Nat)
    (ids : Nat → String) (shuffle : List Tile → List Tile) : GameState :=
  let human : Player :=
    { id := ids 1, name := player_name, player_type := .human,
      hand := [], score := 0, is_active := true }
  let ais : List Player := (List.range num_ai_players).map fun i =>
    { id := ids (i + 2), name := "AI Player " ++ toString (i + 1),
      player_type := .ai, hand := [], score := 0, is_active := true }
  let pool := create_all_tiles shuffle
  let dealt := deal_initial_hands (human :: ais) pool
  let placed := place_initial_tile [] dealt.2
  { id := ids 0, status := .in_progress, players := dealt.1,
    board := placed.1, remaining_tiles := placed.2,
    current_player_index := 0, turn_number := 0,
    winner_id := none, consecutive_passes := 0 }

/-- The error responses raised by the `perform_action` route (server.py lines
233-272).  `indexError` models the uncaught `IndexError` that
`players[current_player_index]` would raise on an out-of-range index; like the
`HTTPException`s, it aborts the request before any database write. -/
inductive ActionError where
  | gameNotInProgress
  | outOfTurn
  | missingActionPayload
  | invalidPlacement (i : Nat)
  | tileNotInHand
  | indexError
deriving DecidableEq, Repr

/-- Gameplay tile matching: `t.shape == tile.shape and t.color == tile.color`
(server.py line 269). -/
def tile_attr_match (target : Tile) (t : Tile) : Bool :=
  t.shape == target.shape && t.color == target.color

/-- Mirrors the hand-removal loop (server.py lines 267-272): for each action
tile in order, find the first hand tile with matching shape and color and
remove it; `none` when some action tile has no match (`StopIteration` →
"Tile not in hand"). -/
def remove_tiles_from_hand : List Tile → List Tile → Option (List Tile)
  | [], hand => some hand
  | t :: ts, hand =>
    if hand.any (tile_attr_match t) then
      remove_tiles_from_hand ts (hand.eraseP (tile_attr_match t))
    else
      none

/-- The placed tiles appended to the board (server.py lines 275-282). -/
def placed_batch (turn : Nat) (pid : String)
    (pairs : List (Tile × Position)) : List PlacedTile :=
  pairs.map fun tp =>
    { tile := tp.1, position := tp.2, placed_by := pid, turn_number := turn }

/-- The score awarded by a place action (server.py line 285):
`calculate_score(zip(tiles, positions), board[:-len(tiles)])` evaluated after
the batch has been appended to the board. -/
def place_score (g : GameState) (pid : String) (tiles : List Tile)
    (positions : List Position) : Nat :=
  let pairs := tiles.zip positions
  let new_board := g.board ++ placed_batch g.turn_number pid pairs
  calculate_score pairs (new_board.take (new_board.length - tiles.length))

/-- Python's `max(players, key=lambda p: p.score)` starting from candidate
`cur`: a later player replaces the candidate only when its score is strictly
greater, so ties keep the earliest player. -/
def py_max1 (cur : Player) : List Player → Player
  | [] => cur
  | p :: ps => py_max1 (if cur.score < p.score then p else cur) ps

/-- `max(game_state.players, key=lambda p: p.score).id` (server.py lines
309-310); `none` on an empty list (where Python `max` would raise). -/
def game_winner : List Player → Option String
  | [] => none
  | p :: ps => some (py_max1 p ps).id

/-- The unconditional tail of `perform_action` (server.py lines 301-310):
advance `current_player_index` and `turn_number`, then finish the game with
the highest-scoring player as winner when everyone has passed in a row. -/
def post_process (g : GameState) : GameState :=
  let g1 := { g with
    current_player_index := (g.current_player_index + 1) % g.players.length,
    turn_number := g.turn_number + 1 }
  if g1.players.length ≤ g1.consecutive_passes then
    { g1 with status := .finished, winner_id := game_winner g1.players }
  else
    g1

/-- The `pass` branch (server.py lines 243-244) followed by the unconditional
tail. -/
def apply_pass (g : GameState) : GameState :=
  post_process { g with consecutive_passes := g.consecutive_passes + 1 }

/-- The `exchange` branch (server.py lines 245-255) followed by the
unconditional tail: return the whole hand to the pool, shuffle, and draw
`min(old hand size, pool size)` tiles back. -/
def apply_exchange (shuffle : List Tile → List Tile) (g : GameState)
    (current_player : Player) : GameState :=
  let returned_tiles := current_player.hand
  let pool := shuffle (g.remaining_tiles ++ returned_tiles)
  let new_hand_size := min returned_tiles.length pool.length
  let current' := { current_player with hand := pool.take new_hand_size }
  post_process
    { g with
      players := g.players.set g.current_player_index current',
      remaining_tiles := pool.drop new_hand_size,
      consecutive_passes := 0 }

/-- The successor state produced by a successful place action (server.py
lines 274-299 plus the unconditional tail), given the hand `hand'` left after
removing the action tiles. -/
def place_success_state (g : GameState) (current_player : Player)
    (tiles : List Tile) (positions : List Position) (hand' : List Tile) :
    GameState :=
  let pairs := tiles.zip positions
  let new_board :=
    g.board ++ placed_batch g.turn_number current_player.id pairs
  let score := place_score g current_player.id tiles positions
  let new_tiles_count := min tiles.length g.remaining_tiles.length
  let new_hand := hand' ++ g.remaining_tiles.take new_tiles_count
  let used_all := new_hand.isEmpty
  let current' := { current_player with
    hand := new_hand,
    score := current_player.score + score + (if used_all then 6 else 0) }
  post_process
    { g with
      players := g.players.set g.current_player_index current',
      board := new_board,
      remaining_tiles := g.remaining_tiles.drop new_tiles_count,
      consecutive_passes := 0,
      status := if used_all then .finished else g.status,
      winner_id := if used_all then some current_player.id else g.winner_id }

/-- The `place` branch (server.py lines 257-299) followed by the
unconditional tail.  Note that validation and placement run over
`zip(tiles, positions)` (which silently truncates to the shorter list) while
hand removal and replacement drawing run over the full `tiles` list. -/
def apply_place (g : GameState) (current_player : Player)
    (tiles : List Tile) (positions : List Position) :
    Except ActionError GameState :=
  if tiles.isEmpty || positions.isEmpty then
    .error .missingActionPayload
  else
    match (tiles.zip positions).findIdx?
        (fun tp => !validate_tile_placement tp.1 tp.2 g.board) with
    | some i => .error (.invalidPlacement i)
    | none =>
      match remove_tiles_from_hand tiles current_player.hand with
      | none => .error .tileNotInHand
      | some hand' =>
        .ok (place_success_state g current_player tiles positions hand')

/-- Mirrors the `perform_action` route's game logic (server.py lines
233-310), from the loaded `GameState` to either an error response (the
state is then not written back) or the successor state. -/
def perform_action (shuffle : List Tile → List Tile) (g : GameState)
    (action : GameAction) : Except ActionError GameState :=
  if g.status ≠ GameStatus.in_progress then
    .error .gameNotInProgress
  else
    match g.players[g.current_player_index]? with
    | none => .error .indexError
    | some current_player =>
      if action.player_id ≠ current_player.id then
        .error .outOfTurn
      else
        match action.action_type with
        | .pass => .ok (apply_pass g)
        | .exchange => .ok (apply_exchange shuffle g current_player)
        | .place =>
          match action.tiles, action.positions with
          | some tiles, some positions =>
            apply_place g current_player tiles positions
          | _, _ => .error .missingActionPayload

/-- The store-level effect of the action route: the new state is written back
(`db.games.replace_one`, line 313) only when processing succeeded; any raised
error leaves the stored document untouched. -/
def perform_action_stored (shuffle : List Tile → List Tile) (g : GameState)
    (action : GameAction) : GameState :=
  match perform_action shuffle g action with
  | .ok g' => g'
  | .error _ => g

/-- Total number of tiles across all hands, the board, and the draw pile. -/
def tile_total (g : GameState) : Nat :=
  (g.players.map fun p => p.hand.length).sum + g.board.length +
    g.remaining_tiles.length

/-- Spec-side scoring formula (§4.4 of the spec): one point per placed tile,
plus for each placed tile the count of board tiles in its row including the
new tile, plus the count of board tiles in its column including the new
tile. -/
def score_spec (placed_tiles : List (Tile × Position))
    (board : List PlacedTile) : Nat :=
  placed_tiles.length +
    (placed_tiles.map fun tp =>
      ((board.filter fun pt => pt.position.row == tp.2.row).length + 1) +
      ((board.filter fun pt => pt.position.col == tp.2.col).length + 1)).sum

/-- The positions a place action actually puts on the board: the `snd`
components of `zip(tiles, positions)`.  Empty for other action kinds. -/
def batch_positions (action : GameAction) : List Position :=
  match action.action_type, action.tiles, action.positions with
  | .place, some tiles, some positions => (tiles.zip positions).map Prod.snd
  | _, _, _ => []

/-- A place payload is well-formed when its tiles and positions sequences
have the same length (§3 of the spec: "parallel sequences ... must be same
length").  Other action kinds are unconstrained. -/
def wf_payload (action : GameAction) : Prop :=
  action.action_type = .place →
    ∀ tiles positions, action.tiles = some tiles →
      action.positions = some positions → tiles.length = positions.length

/-- Game states reachable from `create_game` by successful `perform_action`
calls whose actions satisfy `allowed`; the shuffles are arbitrary
permutations, as `random.shuffle` produces. -/
inductive ReachableVia (allowed : GameAction → Prop) : GameState → Prop where
  | init (player_name : String) (num_ai_players : Nat) (ids : Nat → String)
      (shuffle : List Tile → List Tile)
      (hshuffle : ∀ l : List Tile, (shuffle l).Perm l) :
      ReachableVia allowed (create_game player_name num_ai_players ids shuffle)
  | step (g : GameState) (action : GameAction)
      (shuffle : List Tile → List Tile)
      (hshuffle : ∀ l : List Tile, (shuffle l).Perm l) (g' : GameState)
      (hg : ReachableVia allowed g) (ha : allowed action)
      (h : perform_action shuffle g action = .ok g') :
      ReachableVia allowed g'

/-- A star/red tile as a client would submit it (ids are irrelevant to
gameplay equality). -/
def tStar : Tile := { shape := "star", color := "red", id := "" }

/-- A concrete freshly created game: one human, one AI player, with the
identity permutation as the shuffle outcome.  The pool starts with 30
star/red tiles, so both six-tile hands and the referee tile at (0,0) are all
star/red. -/
def game0 : GameState :=
  create_game "Alice" 1 (fun n => "id" ++ toString n) id

/-- A place action by the human player of `game0` whose tiles and positions
sequences have different lengths (two tiles, one position). -/
def mismatchedPlace : GameAction :=
  { action_type := .place, player_id := "id1",
    tiles := some [tStar, tStar],
    positions := some [{ row := 0, col := 1 }] }

/-- A second mismatched place action by the human player of `game0` (three
tiles, two positions). -/
def mismatchedPlace3 : GameAction :=
  { action_type := .place, player_id := "id1",
    tiles := some [tStar, tStar, tStar],
    positions := some [{ row := 0, col := 1 }, { row := 1, col := 0 }] }

/-- A place action by the human player of `game0` that puts two tiles on the
same position (0,1); both validate against the pre-batch board. -/
def duplicatePlace : GameAction :=
  { action_type := .place, player_id := "id1",
    tiles := some [tStar, tStar],
    positions := some [{ row := 0, col := 1 }, { row := 0, col := 1 }] }

/-- The state stored after the human player of `game0` performs
`duplicatePlace`. -/
def game0_dup : GameState := perform_action_stored id game0 duplicatePlace

/-- A minimal single-player in-progress state used to instantiate universally
quantified theorems at concrete inputs. -/
def soloState : GameState :=
  { id := "g", status := .in_progress,
    players := [{ id := "A", name := "Ann", player_type := .human,
                  hand := [tStar], score := 0, is_active := true }],
    board := [], remaining_tiles := [],
    current_player_index := 0, turn_number := 0,
    winner_id := none, consecutive_passes := 0 }

/-- A pass action by the player of `soloState`. -/
def soloPass : GameAction :=
  { action_type := .pass, player_id := "A", tiles := none, positions := none }

/-- An exchange action by the player of `soloState`. -/
def soloExchange : GameAction :=
  { action_type := .exchange, player_id := "A", tiles := none,
    positions := none }

/-- A place action by the player of `soloState` that empties its hand. -/
def soloPlace : GameAction :=
  { action_type := .place, player_id := "A", tiles := some [tStar],
    positions := some [{ row := 0, col := 0 }] }

/-- A pass action carrying a player id that is not the current player of
`soloState`. -/
def strangerPass : GameAction :=
  { action_type := .pass, player_id := "B", tiles := none, positions := none }

/-- The single player of `soloState`. -/
def pAnn : Player :=
  { id := "A", name := "Ann", player_type := .human,
    hand := [tStar], score := 0, is_active := true }

/-- The player of `soloState` after `soloPlace`: empty hand and
1 + 2 + 6 = 9 points (placement score 3 plus the +6 bonus). -/
def pAnn9 : Player :=
  { id := "A", name := "Ann", player_type := .human,
    hand := [], score := 9, is_active := true }

/-- The state stored after the player of `soloState` passes. -/
def soloPassed : GameState := perform_action_stored id soloState soloPass

/-- The state stored after the player of `soloState` places its last tile. -/
def soloPlaced : GameState := perform_action_stored id soloState soloPlace

/-- The state stored after the player of `soloState` exchanges its hand. -/
def soloExchanged : GameState :=
  perform_action_stored id soloState soloExchange

theorem pos_beq_iff (p q : Position) :
    (p.row == q.row && p.col == q.col) = true ↔ p = q := by
  cases p with
  | mk pr pc =>
    cases q with
    | mk qr qc =>
      simp [Position.mk.injEq]

theorem mem_adjacent_iff (pos : Position) (board : List PlacedTile)
    (pt : PlacedTile) :
    pt ∈ (get_neighbors pos board).filterMap id ↔
      some pt ∈ get_neighbors pos board := by
  simp [List.mem_filterMap, id]

/-- Claim C1: `validate_tile_placement` returns true exactly when the target
position is unoccupied, the board is empty or some orthogonal neighbor is
occupied, and every occupied orthogonal neighbor's tile shares a color or a
shape with the candidate tile; in particular on an empty board every position
is accepted. -/
theorem validate_tile_placement_iff (t : Tile) (pos : Position)
    (board : List PlacedTile) :
    validate_tile_placement t pos board = true ↔
      ((∀ pt ∈ board, pt.position ≠ pos) ∧
       (board = [] ∨ ∃ pt, some pt ∈ get_neighbors pos board) ∧
       (∀ pt, some pt ∈ get_neighbors pos board →
          t.color = pt.tile.color ∨ t.shape = pt.tile.shape)) := by
  simp only [validate_tile_placement]
  split
  next h =>
    rw [List.any_eq_true] at h
    obtain ⟨pt, hmem, hb⟩ := h
    simp only [Bool.false_eq_true, false_iff]
    rintro ⟨h1, -, -⟩
    exact h1 pt hmem ((pos_beq_iff _ _).1 hb)
  next h =>
    rw [List.any_eq_true] at h
    push_neg at h
    have hocc : ∀ pt ∈ board, pt.position ≠ pos := by
      intro pt hmem heq
      exact absurd ((pos_beq_iff pt.position pos).2 heq) (by simpa using h pt hmem)
    split
    next hemp =>
      rw [Bool.and_eq_true, Bool.not_eq_true'] at hemp
      simp only [Bool.false_eq_true, false_iff]
      rintro ⟨-, h2, -⟩
      rcases h2 with h2 | ⟨pt, hpt⟩
      · rw [h2] at hemp
        simp at hemp
      · have : pt ∈ (get_neighbors pos board).filterMap id :=
          (mem_adjacent_iff pos board pt).2 hpt
        rw [List.isEmpty_iff] at hemp
        rw [hemp.1] at this
        simp at this
    next hemp =>
      rw [Bool.and_eq_true, Bool.not_eq_true'] at hemp
      push_neg at hemp
      constructor
      · intro hall
        refine ⟨hocc, ?_, ?_⟩
        · by_cases hb : board = []
          · exact Or.inl hb
          · right
            have hne : ¬(get_neighbors pos board).filterMap id = [] := by
              intro hnil
              have hbf : board.isEmpty = false := by
                rw [Bool.eq_false_iff]
                intro hT
                exact hb (List.isEmpty_iff.mp hT)
              exact hemp (List.isEmpty_iff.mpr hnil) hbf
            obtain ⟨pt, hpt⟩ := List.exists_mem_of_ne_nil _ hne
            exact ⟨pt, (mem_adjacent_iff pos board pt).1 hpt⟩
        · intro pt hpt
          rw [List.all_eq_true] at hall
          have := hall pt ((mem_adjacent_iff pos board pt).2 hpt)
          rw [Bool.or_eq_true] at this
          rcases this with hc | hs
          · exact Or.inl (beq_iff_eq.1 hc)
          · exact Or.inr (beq_iff_eq.1 hs)
      · rintro ⟨-, -, h3⟩
        rw [List.all_eq_true]
        intro pt hpt
        rw [Bool.or_eq_true]
        rcases h3 pt ((mem_adjacent_iff pos board pt).1 hpt) with hc | hs
        · exact Or.inl (beq_iff_eq.2 hc)
        · exact Or.inr (beq_iff_eq.2 hs)

theorem foldl_score_aux (board : List PlacedTile) :
    ∀ (l : List (Tile × Position)) (n : Nat),
      l.foldl (fun (acc : Nat) (tp : Tile × Position) =>
        acc +
          ((board.filter fun pt => pt.position.row == tp.2.row) ++
            [({ tile := tp.1, position := tp.2, placed_by := "temp",
                turn_number := 0 } : PlacedTile)]).length +
          ((board.filter fun pt => pt.position.col == tp.2.col) ++
            [({ tile := tp.1, position := tp.2, placed_by := "temp",
                turn_number := 0 } : PlacedTile)]).length) n =
      n + (l.map fun tp =>
        ((board.filter fun pt => pt.position.row == tp.2.row).length + 1) +
        ((board.filter fun pt => pt.position.col == tp.2.col).length + 1)).sum := by
  intro l
  induction l with
  | nil => intro n; simp
  | cons x xs ih =>
    intro n
    rw [List.foldl_cons, ih]
    simp only [List.map_cons, List.sum_cons, List.length_append,
      List.length_cons, List.length_nil]
    omega

/-- Claim C4: for every non-empty placement batch and pre-placement board,
`calculate_score` returns the number of tiles placed plus, for each placed
tile, the count of board tiles in its row including the new tile plus the
count of board tiles in its column including the new tile (so each placed
tile is itself counted once in its row tally and once in its column tally,
and board tiles shared between two placed tiles' rows/columns are tallied for
each of them). -/
theorem calculate_score_eq_spec (placed_tiles : List (Tile × Position))
    (board : List PlacedTile) (_hne : placed_tiles ≠ []) :
    calculate_score placed_tiles board = score_spec placed_tiles board := by
  simp only [calculate_score, score_spec]
  rw [foldl_score_aux]
  omega

set_option maxRecDepth 10000 in
theorem all_tiles_ordered_length : all_tiles_ordered.length = 1080 := by
  decide

set_option maxRecDepth 100000 in
theorem all_tiles_ordered_counts :
    ∀ s ∈ SHAPES, ∀ c ∈ COLORS,
      (all_tiles_ordered.countP fun t => t.shape == s && t.color == c) = 30 := by
  decide

theorem post_process_players (g : GameState) :
    (post_process g).players = g.players := by
  simp only [post_process]
  split <;> rfl

theorem post_process_board (g : GameState) :
    (post_process g).board = g.board := by
  simp only [post_process]
  split <;> rfl

theorem post_process_remaining (g : GameState) :
    (post_process g).remaining_tiles = g.remaining_tiles := by
  simp only [post_process]
  split <;> rfl

theorem post_process_consecutive (g : GameState) :
    (post_process g).consecutive_passes = g.consecutive_passes := by
  simp only [post_process]
  split <;> rfl

theorem post_process_of_ge (g : GameState)
    (h : g.players.length ≤ g.consecutive_passes) :
    (post_process g).status = .finished ∧
    (post_process g).winner_id = game_winner g.players := by
  simp only [post_process]
  rw [if_pos h]
  exact ⟨rfl, rfl⟩

theorem post_process_of_lt (g : GameState)
    (h : g.consecutive_passes < g.players.length) :
    (post_process g).status = g.status ∧
    (post_process g).winner_id = g.winner_id := by
  simp only [post_process]
  rw [if_neg (Nat.not_le.mpr h)]
  exact ⟨rfl, rfl⟩

theorem perform_action_ok_cases (shuffle : List Tile → List Tile)
    (g : GameState) (action : GameAction) (g' : GameState)
    (h : perform_action shuffle g action = .ok g') :
    ∃ current_player, g.status = .in_progress ∧
      g.players[g.current_player_index]? = some current_player ∧
      action.player_id = current_player.id ∧
      ((action.action_type = .pass ∧ g' = apply_pass g) ∨
       (action.action_type = .exchange ∧
          g' = apply_exchange shuffle g current_player) ∨
       (action.action_type = .place ∧ ∃ tiles positions,
          action.tiles = some tiles ∧ action.positions = some positions ∧
          apply_place g current_player tiles positions = .ok g')) := by
  unfold perform_action at h
  split at h
  · exact absurd h (by simp)
  next hstat =>
    rw [not_not] at hstat
    split at h
    · exact absurd h (by simp)
    next current_player hcur =>
      split at h
      · exact absurd h (by simp)
      next hpid =>
        rw [not_not] at hpid
        refine ⟨current_player, hstat, hcur, hpid, ?_⟩
        split at h
        next hty =>
          exact Or.inl ⟨hty, (Except.ok.inj h).symm⟩
        next hty =>
          exact Or.inr (Or.inl ⟨hty, (Except.ok.inj h).symm⟩)
        next hty =>
          split at h
          next tiles positions htp hps =>
            exact Or.inr (Or.inr ⟨hty, tiles, positions, htp, hps, h⟩)
          next => exact absurd h (by simp)

theorem remove_tiles_length : ∀ (ts hand hand' : List Tile),
    remove_tiles_from_hand ts hand = some hand' →
    hand'.length + ts.length = hand.length := by
  intro ts
  induction ts with
  | nil =>
    intro hand hand' h
    simp only [remove_tiles_from_hand, Option.some.injEq] at h
    rw [h]
    simp
  | cons t ts ih =>
    intro hand hand' h
    simp only [remove_tiles_from_hand] at h
    split at h
    next hany =>
      have hrec := ih _ _ h
      rw [List.any_eq_true] at hany
      obtain ⟨a, ha, hpa⟩ := hany
      have hlen := List.length_eraseP_add_one ha hpa
      simp only [List.length_cons]
      omega
    next => exact absurd h (by simp)

theorem sum_map_set (f : Player → Nat) :
    ∀ (l : List Player) (i : Nat) (p q : Player), l[i]? = some q →
      ((l.set i p).map f).sum + f q = (l.map f).sum + f p := by
  intro l
  induction l with
  | nil => intro i p q h; simp at h
  | cons x xs ih =>
    intro i p q h
    cases i with
    | zero =>
      simp only [List.getElem?_cons_zero, Option.some.injEq] at h
      subst h
      simp only [List.set_cons_zero, List.map_cons, List.sum_cons]
      omega
    | succ n =>
      simp only [List.getElem?_cons_succ] at h
      have := ih n p q h
      simp only [List.set_cons_succ, List.map_cons, List.sum_cons]
      omega

theorem validate_not_occupied (t : Tile) (pos : Position)
    (board : List PlacedTile)
    (h : validate_tile_placement t pos board = true) :
    ∀ pt ∈ board, pt.position ≠ pos := by
  intro pt hmem heq
  have hany : (board.any fun pt =>
      pt.position.row == pos.row && pt.position.col == pos.col) = true :=
    List.any_eq_true.mpr ⟨pt, hmem, (pos_beq_iff _ _).2 heq⟩
  simp only [validate_tile_placement, if_pos hany] at h
  exact absurd h (by simp)

theorem apply_place_ok (g : GameState) (current_player : Player)
    (tiles : List Tile) (positions : List Position) (g' : GameState)
    (h : apply_place g current_player tiles positions = .ok g') :
    tiles ≠ [] ∧ positions ≠ [] ∧
    (∀ tp ∈ tiles.zip positions,
       validate_tile_placement tp.1 tp.2 g.board = true) ∧
    ∃ hand', remove_tiles_from_hand tiles current_player.hand = some hand' ∧
      g' = place_success_state g current_player tiles positions hand' := by
  unfold apply_place at h
  split at h
  · exact absurd h (by simp)
  next hne =>
    rw [Bool.or_eq_true] at hne
    push_neg at hne
    obtain ⟨h1, h2⟩ := hne
    split at h
    · exact absurd h (by simp)
    next hfind =>
      split at h
      · exact absurd h (by simp)
      next hand' hrem =>
        refine ⟨?_, ?_, ?_, hand', hrem, (Except.ok.inj h).symm⟩
        · intro hnil; rw [hnil] at h1; simp at h1
        · intro hnil; rw [hnil] at h2; simp at h2
        · intro tp hmem
          have hall := List.findIdx?_eq_none_iff.mp hfind
          have hv := hall tp hmem
          simpa using hv

theorem apply_pass_players (g : GameState) :
    (apply_pass g).players = g.players := by
  unfold apply_pass
  rw [post_process_players]

theorem apply_pass_board (g : GameState) :
    (apply_pass g).board = g.board := by
  unfold apply_pass
  rw [post_process_board]

theorem tile_total_apply_pass (g : GameState) :
    tile_total (apply_pass g) = tile_total g := by
  unfold tile_total apply_pass
  rw [post_process_players, post_process_board, post_process_remaining]

theorem apply_exchange_board (shuffle : List Tile → List Tile)
    (g : GameState) (current_player : Player) :
    (apply_exchange shuffle g current_player).board = g.board := by
  unfold apply_exchange
  rw [post_process_board]

theorem tile_total_apply_exchange (shuffle : List Tile → List Tile)
    (hlen : ∀ l : List Tile, (shuffle l).length = l.length)
    (g : GameState) (current_player : Player)
    (hcur : g.players[g.current_player_index]? = some current_player) :
    tile_total (apply_exchange shuffle g current_player) = tile_total g := by
  unfold tile_total apply_exchange
  rw [post_process_players, post_process_board, post_process_remaining]
  have hpool : (shuffle (g.remaining_tiles ++ current_player.hand)).length =
      g.remaining_tiles.length + current_player.hand.length := by
    rw [hlen, List.length_append]
  have hset := sum_map_set (fun p => p.hand.length) g.players
    g.current_player_index
    { current_player with
      hand := (shuffle (g.remaining_tiles ++ current_player.hand)).take
        (min current_player.hand.length
          (shuffle (g.remaining_tiles ++ current_player.hand)).length) }
    current_player hcur
  simp only [List.length_take, List.length_drop] at hset ⊢
  omega

theorem place_success_state_board (g : GameState) (current_player : Player)
    (tiles : List Tile) (positions : List Position) (hand' : List Tile) :
    (place_success_state g current_player tiles positions hand').board =
      g.board ++ placed_batch g.turn_number current_player.id
        (tiles.zip positions) := by
  unfold place_success_state
  rw [post_process_board]

theorem tile_total_place_success (g : GameState) (current_player : Player)
    (tiles : List Tile) (positions : List Position) (hand' : List Tile)
    (hcur : g.players[g.current_player_index]? = some current_player)
    (hwf : tiles.length = positions.length)
    (hrem : remove_tiles_from_hand tiles current_player.hand = some hand') :
    tile_total (place_success_state g current_player tiles positions hand') =
      tile_total g := by
  have hhand := remove_tiles_length tiles current_player.hand hand' hrem
  unfold tile_total place_success_state
  rw [post_process_players, post_process_board, post_process_remaining]
  have hset := sum_map_set (fun p => p.hand.length) g.players
    g.current_player_index
    { current_player with
      hand := hand' ++ g.remaining_tiles.take
        (min tiles.length g.remaining_tiles.length),
      score := current_player.score +
        place_score g current_player.id tiles positions +
        (if (hand' ++ g.remaining_tiles.take
            (min tiles.length g.remaining_tiles.length)).isEmpty
          then 6 else 0) }
    current_player hcur
  simp only [List.length_append, List.length_take, List.length_drop,
    placed_batch, List.length_map, List.length_zip] at hset ⊢
  omega

theorem deal_conserve : ∀ (players : List Player) (pool : List Tile),
    ((deal_initial_hands players pool).1.map fun p => p.hand.length).sum +
      (deal_initial_hands players pool).2.length = pool.length := by
  intro players
  induction players with
  | nil => intro pool; simp [deal_initial_hands]
  | cons p ps ih =>
    intro pool
    have := ih (pool.drop INITIAL_HAND_SIZE)
    simp only [deal_initial_hands, List.map_cons, List.sum_cons,
      List.length_take, List.length_drop] at this ⊢
    omega

theorem deal_players (players : List Player) (pool : List Tile) :
    (deal_initial_hands players pool).1.length = players.length := by
  induction players generalizing pool with
  | nil => simp [deal_initial_hands]
  | cons p ps ih => simp [deal_initial_hands, ih]

theorem deal_pool_length : ∀ (players : List Player) (pool : List Tile),
    (deal_initial_hands players pool).2.length =
      pool.length - INITIAL_HAND_SIZE * players.length := by
  intro players
  induction players with
  | nil => intro pool; simp [deal_initial_hands]
  | cons p ps ih =>
    intro pool
    have := ih (pool.drop INITIAL_HAND_SIZE)
    simp only [deal_initial_hands, List.length_cons, List.length_drop] at this ⊢
    rw [this]
    ring_nf
    omega

theorem place_initial_conserve (board : List PlacedTile) (pool : List Tile) :
    (place_initial_tile board pool).1.length +
      (place_initial_tile board pool).2.length =
      board.length + pool.length := by
  cases pool <;> (simp [place_initial_tile]; try omega)

theorem place_initial_length (board : List PlacedTile) (pool : List Tile)
    (h : pool ≠ []) :
    (place_initial_tile board pool).1.length = board.length + 1 := by
  cases pool with
  | nil => exact absurd rfl h
  | cons t rest => simp [place_initial_tile]

theorem create_game_tile_total (player_name : String) (num_ai_players : Nat)
    (ids : Nat → String) (shuffle : List Tile → List Tile)
    (hs : ∀ l : List Tile, (shuffle l).Perm l) :
    tile_total (create_game player_name num_ai_players ids shuffle) = 1080 := by
  have hpool : (create_all_tiles shuffle).length = 1080 := by
    rw [create_all_tiles, (hs all_tiles_ordered).length_eq,
      all_tiles_ordered_length]
  unfold tile_total create_game
  dsimp only
  have hdeal := deal_conserve
    ({ id := ids 1, name := player_name, player_type := .human,
       hand := [], score := 0, is_active := true } ::
      (List.range num_ai_players).map fun i =>
        { id := ids (i + 2), name := "AI Player " ++ toString (i + 1),
          player_type := .ai, hand := [], score := 0, is_active := true })
    (create_all_tiles shuffle)
  have hplace := place_initial_conserve []
    (deal_initial_hands
      ({ id := ids 1, name := player_name, player_type := .human,
         hand := [], score := 0, is_active := true } ::
        (List.range num_ai_players).map fun i =>
          { id := ids (i + 2), name := "AI Player " ++ toString (i + 1),
            player_type := .ai, hand := [], score := 0, is_active := true })
      (create_all_tiles shuffle)).2
  simp only [List.length_nil] at hplace
  omega

theorem create_game_board_length (player_name : String) (num_ai_players : Nat)
    (ids : Nat → String) (shuffle : List Tile → List Tile)
    (hs : ∀ l : List Tile, (shuffle l).Perm l)
    (hsmall : 6 * (num_ai_players + 1) < 1080) :
    (create_game player_name num_ai_players ids shuffle).board.length = 1 := by
  have hpool : (create_all_tiles shuffle).length = 1080 := by
    rw [create_all_tiles, (hs all_tiles_ordered).length_eq,
      all_tiles_ordered_length]
  unfold create_game
  dsimp only
  have hrest := deal_pool_length
    ({ id := ids 1, name := player_name, player_type := .human,
       hand := [], score := 0, is_active := true } ::
      (List.range num_ai_players).map fun i =>
        { id := ids (i + 2), name := "AI Player " ++ toString (i + 1),
          player_type := .ai, hand := [], score := 0, is_active := true })
    (create_all_tiles shuffle)
  rw [hpool] at hrest
  simp only [List.length_cons, List.length_map, List.length_range,
    INITIAL_HAND_SIZE] at hrest
  have hne : (deal_initial_hands
      ({ id := ids 1, name := player_name, player_type := .human,
         hand := [], score := 0, is_active := true } ::
        (List.range num_ai_players).map fun i =>
          { id := ids (i + 2), name := "AI Player " ++ toString (i + 1),
            player_type := .ai, hand := [], score := 0, is_active := true })
      (create_all_tiles shuffle)).2 ≠ [] := by
    intro hnil
    rw [hnil] at hrest
    simp only [List.length_nil] at hrest
    omega
  have hfin := place_initial_length [] _ hne
  simp only [List.length_nil] at hfin
  exact hfin

theorem place_initial_nodup (pool : List Tile) :
    ((place_initial_tile [] pool).1.map PlacedTile.position).Nodup := by
  cases pool <;> simp [place_initial_tile]

theorem tile_total_invariant (g : GameState)
    (hg : ReachableVia wf_payload g) : tile_total g = 1080 := by
  induction hg with
  | init player_name num_ai_players ids shuffle hs =>
    exact create_game_tile_total player_name num_ai_players ids shuffle hs
  | step g a shuffle hs g' hg ha hok ih =>
    obtain ⟨cp, hstat, hcur, hpid, hbr⟩ := perform_action_ok_cases shuffle g a g' hok
    rcases hbr with ⟨hty, rfl⟩ | ⟨hty, rfl⟩ | ⟨hty, tiles, positions, hts, hps, hap⟩
    · rw [tile_total_apply_pass, ih]
    · rw [tile_total_apply_exchange shuffle (fun l => (hs l).length_eq) g cp hcur,
        ih]
    · obtain ⟨hne1, hne2, hval, hand', hrem, rfl⟩ :=
        apply_place_ok g cp tiles positions g' hap
      rw [tile_total_place_success g cp tiles positions hand' hcur
        (ha hty tiles positions hts hps) hrem, ih]

/-- Claim C9 (amended): in every state reachable from game creation by
successful actions whose place batches use pairwise-distinct positions, no
two placed tiles on the board share a position.  (The unamended claim is
refuted by `board_nodup_counterexample`: a single place action may put two
tiles on the same position, since each tile is validated against the
pre-batch board only.) -/
theorem board_nodup_invariant (g : GameState)
    (hg : ReachableVia (fun a => (batch_positions a).Nodup) g) :
    (g.board.map PlacedTile.position).Nodup := by
  induction hg with
  | init player_name num_ai_players ids shuffle hs =>
    unfold create_game
    dsimp only
    exact place_initial_nodup _
  | step g a shuffle hs g' hg ha hok ih =>
    obtain ⟨cp, hstat, hcur, hpid, hbr⟩ := perform_action_ok_cases shuffle g a g' hok
    rcases hbr with ⟨hty, rfl⟩ | ⟨hty, rfl⟩ | ⟨hty, tiles, positions, hts, hps, hap⟩
    · rw [apply_pass_board]; exact ih
    · rw [apply_exchange_board]; exact ih
    · obtain ⟨hne1, hne2, hval, hand', hrem, rfl⟩ :=
        apply_place_ok g cp tiles positions g' hap
      rw [place_success_state_board, List.map_append]
      have hbatchpos : (placed_batch g.turn_number cp.id
          (tiles.zip positions)).map PlacedTile.position =
          (tiles.zip positions).map Prod.snd := by
        simp [placed_batch, Function.comp]
      rw [hbatchpos]
      have hnodup_batch : ((tiles.zip positions).map Prod.snd).Nodup := by
        have : batch_positions a = (tiles.zip positions).map Prod.snd := by
          simp [batch_positions, hty, hts, hps]
        rw [this] at ha
        exact ha
      refine ih.append hnodup_batch ?_
      intro pos hmem1 hmem2
      rw [List.mem_map] at hmem1 hmem2
      obtain ⟨pt, hptmem, hpt⟩ := hmem1
      obtain ⟨tp, htpmem, htp⟩ := hmem2
      have := validate_not_occupied tp.1 tp.2 g.board (hval tp htpmem) pt hptmem
      rw [hpt, htp] at this
      exact this rfl

theorem py_max1_spec : ∀ (ps : List Player) (cur : Player),
    ∃ i : Nat, (cur :: ps)[i]? = some (py_max1 cur ps) ∧
      (∀ q ∈ cur :: ps, q.score ≤ (py_max1 cur ps).score) ∧
      (∀ (j : Nat) (q : Player), j < i → (cur :: ps)[j]? = some q →
         q.score < (py_max1 cur ps).score) := by
  intro ps
  induction ps with
  | nil =>
    intro cur
    refine ⟨0, rfl, ?_, ?_⟩
    · intro q hq
      rw [List.mem_singleton] at hq
      rw [hq]
      exact Nat.le_refl _
    · intro j q hj hq
      exact absurd hj (Nat.not_lt_zero j)
  | cons p ps ih =>
    intro cur
    simp only [py_max1]
    by_cases hcp : cur.score < p.score
    · obtain ⟨i, hi, hbound, hfirst⟩ := ih (if cur.score < p.score then p else cur)
      rw [if_pos hcp] at hi hbound hfirst ⊢
      cases i with
      | zero =>
        have hm : some p = some (py_max1 p ps) := by
          simpa using hi
        rw [Option.some.injEq] at hm
        refine ⟨1, ?_, ?_, ?_⟩
        · simpa using hi
        · intro q hq
          rcases List.mem_cons.mp hq with rfl | hq'
          · rw [← hm]
            omega
          · exact hbound q hq'
        · intro j q hj hq
          have hj0 : j = 0 := by omega
          subst hj0
          simp only [List.getElem?_cons_zero, Option.some.injEq] at hq
          subst hq
          rw [← hm]
          omega
      | succ k =>
        refine ⟨k + 2, ?_, ?_, ?_⟩
        · simpa using hi
        · intro q hq
          rcases List.mem_cons.mp hq with rfl | hq'
          · have hp : p.score ≤ (py_max1 p ps).score :=
              hbound p (List.mem_cons_self p ps)
            omega
          · exact hbound q hq'
        · intro j q hj hq
          cases j with
          | zero =>
            simp only [List.getElem?_cons_zero, Option.some.injEq] at hq
            subst hq
            have hp : p.score < (py_max1 p ps).score :=
              hfirst 0 p (Nat.succ_pos k) (by simp)
            omega
          | succ j' =>
            simp only [List.getElem?_cons_succ] at hq
            exact hfirst j' q (by omega) hq
    · obtain ⟨i, hi, hbound, hfirst⟩ := ih (if cur.score < p.score then p else cur)
      rw [if_neg hcp] at hi hbound hfirst ⊢
      push_neg at hcp
      cases i with
      | zero =>
        refine ⟨0, ?_, ?_, ?_⟩
        · simpa using hi
        · intro q hq
          rcases List.mem_cons.mp hq with rfl | hq'
          · exact hbound q (List.mem_cons_self q ps)
          · rcases List.mem_cons.mp hq' with rfl | hq''
            · have hc : cur.score ≤ (py_max1 cur ps).score :=
                hbound cur (List.mem_cons_self cur ps)
              omega
            · exact hbound q (List.mem_cons_of_mem cur hq'')
        · intro j q hj hq
          exact absurd hj (Nat.not_lt_zero j)
      | succ k =>
        refine ⟨k + 2, ?_, ?_, ?_⟩
        · simpa using hi
        · intro q hq
          rcases List.mem_cons.mp hq with rfl | hq'
          · exact hbound q (List.mem_cons_self q ps)
          · rcases List.mem_cons.mp hq' with rfl | hq''
            · have hc : cur.score ≤ (py_max1 cur ps).score :=
                hbound cur (List.mem_cons_self cur ps)
              omega
            · exact hbound q (List.mem_cons_of_mem cur hq'')
        · intro j q hj hq
          cases j with
          | zero =>
            simp only [List.getElem?_cons_zero, Option.some.injEq] at hq
            have hc : cur.score < (py_max1 cur ps).score :=
              hfirst 0 cur (Nat.succ_pos k) (by simp)
            rw [← hq]
            exact hc
          | succ j' =>
            cases j' with
            | zero =>
              simp only [List.getElem?_cons_succ,
                List.getElem?_cons_zero, Option.some.injEq] at hq
              subst hq
              have hc : cur.score < (py_max1 cur ps).score :=
                hfirst 0 cur (Nat.succ_pos k) (by simp)
              omega
            | succ j'' =>
              simp only [List.getElem?_cons_succ] at hq
              exact hfirst (j'' + 1) q (by omega) (by simpa using hq)

theorem set_ne_nil (l : List Player) (i : Nat) (p : Player) (h : l ≠ []) :
    l.set i p ≠ [] := by
  intro hnil
  apply h
  have hlen := congrArg List.length hnil
  rw [List.length_set] at hlen
  exact List.length_eq_zero.mp hlen

theorem post_process_winner_spec (X : GameState) (hne : X.players ≠ [])
    (h : X.players.length ≤ X.consecutive_passes) :
    (post_process X).status = .finished ∧
    ∃ (i : Nat) (p : Player), (post_process X).players[i]? = some p ∧
      (post_process X).winner_id = some p.id ∧
      (∀ q ∈ (post_process X).players, q.score ≤ p.score) ∧
      (∀ (j : Nat) (q : Player), j < i →
         (post_process X).players[j]? = some q → q.score < p.score) := by
  obtain ⟨hstatus, hwinner⟩ := post_process_of_ge X h
  rw [post_process_players]
  match hps : X.players with
  | [] => exact absurd hps hne
  | p0 :: rest =>
    obtain ⟨i, hi, hbound, hfirst⟩ := py_max1_spec rest p0
    refine ⟨hstatus, i, py_max1 p0 rest, hi, ?_, hbound, hfirst⟩
    rw [hwinner, hps]
    rfl

/-- Claim C5: after any successful action, if `consecutive_passes` has
reached the number of players, the game is finished and the winner is the
first player in the sequence holding the maximum score (every player scores
at most as much, and every earlier player scores strictly less). -/
theorem pass_out_sets_winner :
    ∀ (shuffle : List Tile → List Tile) (g : GameState) (action : GameAction)
      (g' : GameState),
      perform_action shuffle g action = .ok g' →
      g'.players.length ≤ g'.consecutive_passes →
      g'.status = .finished ∧
      ∃ (i : Nat) (p : Player), g'.players[i]? = some p ∧
        g'.winner_id = some p.id ∧
        (∀ q ∈ g'.players, q.score ≤ p.score) ∧
        (∀ (j : Nat) (q : Player), j < i → g'.players[j]? = some q →
           q.score < p.score) := by
  intro shuffle g action g' hok hcp
  obtain ⟨cp, hstat, hcur, hpid, hbr⟩ :=
    perform_action_ok_cases shuffle g action g' hok
  have hne : g.players ≠ [] := by
    intro hnil
    rw [hnil] at hcur
    simp at hcur
  rcases hbr with ⟨hty, rfl⟩ | ⟨hty, rfl⟩ | ⟨hty, tiles, positions, hts, hps, hap⟩
  · unfold apply_pass at hcp ⊢
    rw [post_process_players, post_process_consecutive] at hcp
    exact post_process_winner_spec _ hne hcp
  · unfold apply_exchange at hcp ⊢
    rw [post_process_players, post_process_consecutive] at hcp
    exact post_process_winner_spec _ (set_ne_nil _ _ _ hne) hcp
  · obtain ⟨hne1, hne2, hval, hand', hrem, rfl⟩ :=
      apply_place_ok g cp tiles positions g' hap
    unfold place_success_state at hcp ⊢
    rw [post_process_players, post_process_consecutive] at hcp
    exact post_process_winner_spec _ (set_ne_nil _ _ _ hne) hcp

theorem place_success_state_empty (g : GameState) (cp : Player)
    (tiles : List Tile) (positions : List Position) (hand' : List Tile)
    (hlt : g.current_player_index < g.players.length)
    (hempty : hand' ++ g.remaining_tiles.take
        (min tiles.length g.remaining_tiles.length) = []) :
    (place_success_state g cp tiles positions hand').status = .finished ∧
    (place_success_state g cp tiles positions hand').winner_id = some cp.id ∧
    (place_success_state g cp tiles positions hand').players =
      g.players.set g.current_player_index
        { cp with
          hand := [],
          score := cp.score + place_score g cp.id tiles positions + 6 } := by
  unfold place_success_state
  dsimp only
  rw [hempty]
  simp only [List.isEmpty_nil, if_true]
  have hc : (0 : Nat) < (g.players.set g.current_player_index
      { cp with
        hand := ([] : List Tile),
        score := cp.score + place_score g cp.id tiles positions + 6 }).length := by
    rw [List.length_set]
    omega
  refine ⟨(post_process_of_lt _ hc).1, (post_process_of_lt _ hc).2, ?_⟩
  rw [post_process_players]

/-- Claim C6: a successful place action that leaves the acting player's hand
empty after the replacement draw finishes the game with that player as
winner, and that player's score grew by the placement score plus the +6
bonus. -/
theorem hand_empty_ends_game :
    ∀ (shuffle : List Tile → List Tile) (g : GameState) (action : GameAction)
      (g' : GameState),
      perform_action shuffle g action = .ok g' →
      action.action_type = .place →
      ∀ p' : Player, g'.players[g.current_player_index]? = some p' →
      p'.hand = [] →
      g'.status = .finished ∧ g'.winner_id = some p'.id ∧
      ∃ (current_player : Player) (tiles : List Tile)
        (positions : List Position),
        g.players[g.current_player_index]? = some current_player ∧
        action.tiles = some tiles ∧ action.positions = some positions ∧
        p'.id = current_player.id ∧
        p'.score = current_player.score +
          place_score g current_player.id tiles positions + 6 := by
  intro shuffle g action g' hok hty p' hp' hhand
  obtain ⟨cp, hstat, hcur, hpid, hbr⟩ :=
    perform_action_ok_cases shuffle g action g' hok
  rcases hbr with ⟨hty2, rfl⟩ | ⟨hty2, rfl⟩ | ⟨hty2, tiles, positions, hts, hps, hap⟩
  · rw [hty] at hty2; simp at hty2
  · rw [hty] at hty2; simp at hty2
  · obtain ⟨hne1, hne2, hval, hand', hrem, rfl⟩ :=
      apply_place_ok g cp tiles positions g' hap
    have hlt : g.current_player_index < g.players.length := by
      by_contra hge
      rw [List.getElem?_eq_none (Nat.le_of_not_lt hge)] at hcur
      simp at hcur
    have hp'' := hp'
    unfold place_success_state at hp''
    dsimp only at hp''
    rw [post_process_players, List.getElem?_set_self', hcur] at hp''
    simp only [Option.map_eq_map, Option.map_some', Option.some.injEq,
      Function.const_apply] at hp''
    have hempty : hand' ++ g.remaining_tiles.take
        (min tiles.length g.remaining_tiles.length) = [] := by
      rw [← hp''] at hhand
      simpa using hhand
    obtain ⟨hst, hwin, hplayers⟩ :=
      place_success_state_empty g cp tiles positions hand' hlt hempty
    rw [hplayers] at hp'
    rw [List.getElem?_set_self', hcur] at hp'
    simp only [Option.map_eq_map, Option.map_some', Option.some.injEq,
      Function.const_apply] at hp'
    subst hp'
    exact ⟨hst, by rw [hwin], cp, tiles, positions, hcur, hts, hps, rfl, rfl⟩

/-- Claim C7: the action route is all-or-nothing at the store level: every
error outcome leaves the stored game state untouched (the new state is
written back only on success), and in particular an action carrying a player
id other than the current player's fails with the out-of-turn error. -/
theorem error_leaves_state_unchanged :
    ∀ (shuffle : List Tile → List Tile) (g : GameState) (action : GameAction),
      (∀ e : ActionError, perform_action shuffle g action = .error e →
         perform_action_stored shuffle g action = g) ∧
      (g.status = .in_progress →
       ∀ current_player : Player,
         g.players[g.current_player_index]? = some current_player →
         action.player_id ≠ current_player.id →
         perform_action shuffle g action = .error .outOfTurn) := by
  intro shuffle g action
  constructor
  · intro e he
    unfold perform_action_stored
    rw [he]
  · intro hstat current_player hcur hne
    unfold perform_action
    rw [if_neg (not_not_intro hstat), hcur]
    dsimp only
    rw [if_pos hne]

/-- Claim C10: a successful exchange action leaves the acting player's hand
size unchanged: the whole hand is returned to the pool before drawing, so
`min(old hand size, pool size)` always equals the old hand size. -/
theorem exchange_preserves_hand_size :
    ∀ (shuffle : List Tile → List Tile),
      (∀ l : List Tile, (shuffle l).length = l.length) →
      ∀ (g : GameState) (action : GameAction) (g' : GameState),
        action.action_type = .exchange →
        perform_action shuffle g action = .ok g' →
        ∀ (p p' : Player), g.players[g.current_player_index]? = some p →
          g'.players[g.current_player_index]? = some p' →
          p'.hand.length = p.hand.length := by
  intro shuffle hlen g action g' hty hok p p' hp hp'
  obtain ⟨cp, hstat, hcur, hpid, hbr⟩ :=
    perform_action_ok_cases shuffle g action g' hok
  rcases hbr with ⟨hty2, rfl⟩ | ⟨hty2, rfl⟩ | ⟨hty2, tiles, positions, hts, hps, hap⟩
  · rw [hty] at hty2; simp at hty2
  · have hcp : cp = p := by
      rw [hcur] at hp
      exact Option.some.inj hp
    subst hcp
    unfold apply_exchange at hp'
    dsimp only at hp'
    rw [post_process_players, List.getElem?_set_self', hcur] at hp'
    simp only [Option.map_eq_map, Option.map_some', Option.some.injEq,
      Function.const_apply] at hp'
    subst hp'
    dsimp only
    rw [List.length_take, hlen, List.length_append]
    omega
  · rw [hty] at hty2; simp at hty2

/-- Claim C2 (amended): after game creation the board holds exactly one tile
(whenever the players' initial hands do not exhaust the pool, i.e.
`6 * (num_ai_players + 1) < 1080`), and the total tile count across hands,
board and draw pile equals 1080 in the initial state and in every state
reachable by successful actions whose place payloads carry equally long tiles
and positions sequences.  (The unamended claim is refuted by
`tile_conservation_counterexample`: a successful place action with mismatched
payload lengths changes the total.) -/
theorem tile_conservation :
    (∀ (player_name : String) (num_ai_players : Nat) (ids : Nat → String)
        (shuffle : List Tile → List Tile),
        (∀ l : List Tile, (shuffle l).Perm l) →
        6 * (num_ai_players + 1) < 1080 →
        (create_game player_name num_ai_players ids shuffle).board.length = 1) ∧
    (∀ g : GameState, ReachableVia wf_payload g → tile_total g = 1080) :=
  ⟨fun player_name num_ai_players ids shuffle hs hsmall =>
    create_game_board_length player_name num_ai_players ids shuffle hs hsmall,
   fun g hg => tile_total_invariant g hg⟩

/-- Witness for claim C2: the amended theorem applied to a concrete game with
one human and one AI player and the identity permutation as shuffle. -/
theorem tile_conservation_witness :
    ((∀ l : List Tile, (id l).Perm l) ∧ 6 * (1 + 1) < 1080 ∧
      (create_game "Alice" 1 (fun n => "id" ++ toString n) id).board.length = 1) ∧
    (ReachableVia wf_payload game0 ∧ tile_total game0 = 1080) :=
  have hperm : ∀ l : List Tile, (id l).Perm l := fun l => List.Perm.refl l
  have hr : ReachableVia wf_payload game0 :=
    ReachableVia.init "Alice" 1 (fun n => "id" ++ toString n) id hperm
  ⟨⟨hperm, by decide,
    tile_conservation.1 "Alice" 1 (fun n => "id" ++ toString n) id hperm
      (by decide)⟩,
   hr, tile_conservation.2 game0 hr⟩

set_option maxRecDepth 10000 in
/-- Counterexample for claim C2 as stated: `game0` is reachable and holds
1080 tiles in total, yet the successful place action `mismatchedPlace` (two
tiles, one position) leaves a state with only 1079 tiles: two tiles leave the
hand but only one reaches the board. -/
theorem tile_conservation_counterexample :
    ReachableVia (fun _ => True) game0 ∧ tile_total game0 = 1080 ∧
    (perform_action id game0 mismatchedPlace).toOption.map tile_total =
      some 1079 :=
  ⟨ReachableVia.init "Alice" 1 (fun n => "id" ++ toString n) id
      (fun l => List.Perm.refl l),
   by decide, by decide⟩

/-- Claim C3: for every shuffle outcome (any permutation of the generated
pool), `create_all_tiles` yields exactly 1080 tiles with each of the 36
(shape, color) pairs occurring exactly 30 times. -/
theorem create_all_tiles_spec :
    ∀ shuffle : List Tile → List Tile,
      (∀ l : List Tile, (shuffle l).Perm l) →
      (create_all_tiles shuffle).length = 1080 ∧
      ∀ s ∈ SHAPES, ∀ c ∈ COLORS,
        ((create_all_tiles shuffle).countP
          fun t => t.shape == s && t.color == c) = 30 := by
  intro shuffle hs
  constructor
  · rw [create_all_tiles, (hs all_tiles_ordered).length_eq,
      all_tiles_ordered_length]
  · intro s hsmem c hcmem
    rw [create_all_tiles, (hs all_tiles_ordered).countP_eq]
    exact all_tiles_ordered_counts s hsmem c hcmem

/-- Witness for claim C3: the theorem applied to the identity shuffle. -/
theorem create_all_tiles_spec_witness :
    (∀ l : List Tile, (id l).Perm l) ∧
    ((create_all_tiles id).length = 1080 ∧
     ∀ s ∈ SHAPES, ∀ c ∈ COLORS,
       ((create_all_tiles id).countP
         fun t => t.shape == s && t.color == c) = 30) :=
  ⟨fun l => List.Perm.refl l,
   create_all_tiles_spec id fun l => List.Perm.refl l⟩

/-- Witness for claim C4: the scoring identity at a one-tile placement on an
empty board. -/
theorem calculate_score_eq_spec_witness :
    ([((tStar : Tile), ({ row := 0, col := 0 } : Position))] ≠ []) ∧
    calculate_score [(tStar, { row := 0, col := 0 })] [] =
      score_spec [(tStar, { row := 0, col := 0 })] [] :=
  ⟨by simp,
   calculate_score_eq_spec [(tStar, { row := 0, col := 0 })] [] (by simp)⟩

/-- Witness for claim C5: in a one-player game, a single pass reaches
`consecutive_passes = playerCount = 1` and finishes the game with that player
as winner. -/
theorem pass_out_sets_winner_witness :
    perform_action id soloState soloPass = .ok soloPassed ∧
    soloPassed.players.length ≤ soloPassed.consecutive_passes ∧
    (soloPassed.status = .finished ∧
     ∃ (i : Nat) (p : Player), soloPassed.players[i]? = some p ∧
       soloPassed.winner_id = some p.id ∧
       (∀ q ∈ soloPassed.players, q.score ≤ p.score) ∧
       (∀ (j : Nat) (q : Player), j < i → soloPassed.players[j]? = some q →
          q.score < p.score)) :=
  ⟨rfl, by decide,
   pass_out_sets_winner id soloState soloPass soloPassed rfl (by decide)⟩

/-- Witness for claim C6: the player of `soloState` places its only tile with
an empty draw pile, ending at 9 points (3 placement + 6 bonus) as winner. -/
theorem hand_empty_ends_game_witness :
    perform_action id soloState soloPlace = .ok soloPlaced ∧
    soloPlace.action_type = .place ∧
    soloPlaced.players[soloState.current_player_index]? = some pAnn9 ∧
    pAnn9.hand = [] ∧
    (soloPlaced.status = .finished ∧ soloPlaced.winner_id = some pAnn9.id ∧
     ∃ (current_player : Player) (tiles : List Tile)
       (positions : List Position),
       soloState.players[soloState.current_player_index]? =
         some current_player ∧
       soloPlace.tiles = some tiles ∧ soloPlace.positions = some positions ∧
       pAnn9.id = current_player.id ∧
       pAnn9.score = current_player.score +
         place_score soloState current_player.id tiles positions + 6) :=
  ⟨rfl, rfl, rfl, rfl,
   hand_empty_ends_game id soloState soloPlace soloPlaced rfl rfl pAnn9 rfl
     rfl⟩

/-- Witness for claim C7: a pass by the absent player id "B" fails with the
out-of-turn error and the stored state is unchanged. -/
theorem error_leaves_state_unchanged_witness :
    perform_action id soloState strangerPass = .error .outOfTurn ∧
    perform_action_stored id soloState strangerPass = soloState := by
  have h := error_leaves_state_unchanged id soloState strangerPass
  have hout := h.2 rfl pAnn rfl (by decide)
  exact ⟨hout, h.1 .outOfTurn hout⟩

set_option maxRecDepth 10000 in
/-- Claim C8 evaluated at the failing input: a place action with three tiles
and two positions is not rejected — it succeeds (`toOption.isSome`), places
only the two zipped tiles (board grows from 1 to 3), and corrupts the total
tile count down to 1079 because all three tiles leave the hand. -/
theorem mismatched_payload_accepted :
    ((perform_action id game0 mismatchedPlace3).toOption.isSome = true) ∧
    (perform_action id game0 mismatchedPlace3).toOption.map
      (fun g' => (g'.board.length, tile_total g')) = some (3, 1079) :=
  ⟨by decide, by decide⟩

/-- Witness for claim C9: the freshly created `game0` is reachable with
distinct-position batches and its board (the single referee tile) has no
duplicate positions. -/
theorem board_nodup_invariant_witness :
    ReachableVia (fun a => (batch_positions a).Nodup) game0 ∧
    (game0.board.map PlacedTile.position).Nodup :=
  have hr : ReachableVia (fun a => (batch_positions a).Nodup) game0 :=
    ReachableVia.init "Alice" 1 (fun n => "id" ++ toString n) id
      (fun l => List.Perm.refl l)
  ⟨hr, board_nodup_invariant game0 hr⟩

set_option maxRecDepth 10000 in
/-- Counterexample for claim C9 as stated: a reachable state whose board
carries two tiles on the same position — `duplicatePlace` places two tiles at
(0,1) in one action, and both validate against the pre-batch board. -/
theorem board_nodup_counterexample :
    ∃ g : GameState, ReachableVia (fun _ => True) g ∧
      ¬ (g.board.map PlacedTile.position).Nodup := by
  refine ⟨game0_dup, ?_, ?_⟩
  · have h0 : ReachableVia (fun _ => True) game0 :=
      ReachableVia.init "Alice" 1 (fun n => "id" ++ toString n) id
        (fun l => List.Perm.refl l)
    exact ReachableVia.step game0 duplicatePlace id
      (fun l => List.Perm.refl l) game0_dup h0 trivial (by rfl)
  · decide

/-- Witness for claim C10: exchanging a one-tile hand against an empty pool
returns a one-tile hand. -/
theorem exchange_preserves_hand_size_witness :
    (∀ l : List Tile, (id l).length = l.length) ∧
    soloExchange.action_type = .exchange ∧
    perform_action id soloState soloExchange = .ok soloExchanged ∧
    soloState.players[soloState.current_player_index]? = some pAnn ∧
    soloExchanged.players[soloState.current_player_index]? = some pAnn ∧
    pAnn.hand.length = pAnn.hand.length :=
  ⟨fun _ => rfl, rfl, rfl, rfl, rfl,
   exchange_preserves_hand_size id (fun _ => rfl) soloState soloExchange
     soloExchanged rfl rfl pAnn pAnn rfl rfl⟩

/-- Witness for claim C1: the characterization applied to a star/red tile at
(0,0) on the empty board, where it evaluates to an accepted placement. -/
theorem validate_tile_placement_iff_witness :
    validate_tile_placement tStar { row := 0, col := 0 } [] = true ↔
      ((∀ pt ∈ ([] : List PlacedTile), pt.position ≠
          ({ row := 0, col := 0 } : Position)) ∧
       (([] : List PlacedTile) = [] ∨
         ∃ pt, some pt ∈ get_neighbors { row := 0, col := 0 } []) ∧
       (∀ pt, some pt ∈ get_neighbors { row := 0, col := 0 } [] →
          tStar.color = pt.tile.color ∨ tStar.shape = pt.tile.shape)) :=
  validate_tile_placement_iff tStar { row := 0, col := 0 } []
